import Mathlib

/-!
Verification of the brut static-site generator's page-build pipeline.

Strings from the JavaScript source are embedded as `List Char`.  The
functions below are shallow embeddings of the functions of
`src/brut/src/buildPages.js` (frontmatter extraction, template/partial
loading, the pretty-url output rule, the per-page renderer, the
extension filter and the build's single-catch error structure) together
with the collection/context builder of the spec, the one component with
no counterpart under `src/`.
-/

/-- Shorthand for embedding string literals as character lists. -/
def str (s : String) : List Char := s.toList

/-- Lookup in a JavaScript object modelled as a binding list where a later
binding for the same key overrides an earlier one (object-literal and
spread semantics). -/
def objGet : List (List Char × List Char) → List Char → Option (List Char)
  | [], _ => none
  | kv :: l, k =>
    match objGet l k with
    | some v => some v
    | none => if kv.1 = k then some kv.2 else none

/-! ## Frontmatter extraction (`extractFrontmatter`, buildPages.js)

The source applies the anchored pattern
`^(?:---|<!--)(?:\r?\n|\r)(?:([\s\S]*?)(?:\r?\n|\r))?(?:---|-->)(?:\r?\n|\r|$)`
to the file.  The functions below implement exactly this pattern with the
backtracking order of a JavaScript regex engine: alternatives are tried
left to right, the optional body group is tried before being skipped, and
the lazy `[\s\S]*?` grows the body one character at a time. -/

/-- The opening delimiter alternation `(?:---|<!--)`: the consumed opener
and the remaining input. -/
def openSplit : List Char → Option (List Char × List Char)
  | '-' :: '-' :: '-' :: rest => some (['-', '-', '-'], rest)
  | '<' :: '!' :: '-' :: '-' :: rest => some (['<', '!', '-', '-'], rest)
  | _ => none

/-- The newline alternation `(?:\r?\n|\r)`: every (consumed, rest) split in
the order the regex engine tries them. -/
def nlSplits : List Char → List (List Char × List Char)
  | '\r' :: '\n' :: rest => [(['\r', '\n'], rest), (['\r'], '\n' :: rest)]
  | '\n' :: rest => [(['\n'], rest)]
  | '\r' :: rest => [(['\r'], rest)]
  | _ => []

/-- The closing delimiter alternation `(?:---|-->)`. -/
def closeSplit : List Char → Option (List Char × List Char)
  | '-' :: '-' :: '-' :: rest => some (['-', '-', '-'], rest)
  | '-' :: '-' :: '>' :: rest => some (['-', '-', '>'], rest)
  | _ => none

/-- The trailing `(?:\r?\n|\r|$)`: the first newline split, or the empty
match at end of input.  Nothing follows it in the pattern, so the first
alternative that matches is final. -/
def trailSplit (cs : List Char) : Option (List Char × List Char) :=
  match nlSplits cs with
  | (n, r) :: _ => some (n, r)
  | [] => if cs = [] then some ([], []) else none

/-- Match `(?:---|-->)(?:\r?\n|\r|$)` at the input: consumed text and rest. -/
def closeTrail (cs : List Char) : Option (List Char × List Char) :=
  match closeSplit cs with
  | some (c, r) =>
    match trailSplit r with
    | some (t, r2) => some (c ++ t, r2)
    | none => none
  | none => none

/-- Try each newline split in order, requiring the closer right after it:
the engine's search for `(?:\r?\n|\r)(?:---|-->)(?:\r?\n|\r|$)` at a fixed
body end. -/
def firstCT : List (List Char × List Char) → Option (List Char × List Char)
  | [] => none
  | (n, r) :: rest =>
    match closeTrail r with
    | some (ct, r2) => some (n ++ ct, r2)
    | none => firstCT rest

/-- Can the body end at this position: newline then closer then trailer. -/
def bodyEndHere (cs : List Char) : Option (List Char × List Char) :=
  firstCT (nlSplits cs)

/-- The lazy body search `([\s\S]*?)(?:\r?\n|\r)(?:---|-->)(?:\r?\n|\r|$)`:
shortest body first, returning (body, text consumed after the body, rest). -/
def bodySearch : List Char → Option (List Char × List Char × List Char)
  | [] =>
    match bodyEndHere [] with
    | some (m, rest) => some ([], m, rest)
    | none => none
  | c :: cs =>
    match bodyEndHere (c :: cs) with
    | some (m, rest) => some ([], m, rest)
    | none =>
      match bodySearch cs with
      | some (b, m, r) => some (c :: b, m, r)
      | none => none

/-- After the opener, try each opening-newline split in order; for each, a
present body group is tried before the skipped group (greedy `(?:…)?`). -/
def tryNl (o : List Char) : List (List Char × List Char) →
    Option (List Char × Option (List Char) × List Char)
  | [] => none
  | (n, cs2) :: rest =>
    match bodySearch cs2 with
    | some (b, m, r) => some (o ++ n ++ b ++ m, some b, r)
    | none =>
      match closeTrail cs2 with
      | some (ct, r) => some (o ++ n ++ ct, none, r)
      | none => tryNl o rest

/-- The whole anchored frontmatter pattern: `some (match0, group1, rest)`
when it matches a leading block, `none` otherwise. -/
def fmMatch (cs : List Char) : Option (List Char × Option (List Char) × List Char) :=
  match openSplit cs with
  | some (o, cs1) => tryNl o (nlSplits cs1)
  | none => none

/-- Split a character list at line breaks. -/
def splitLines : List Char → List (List Char)
  | [] => [[]]
  | '\n' :: rest => [] :: splitLines rest
  | '\r' :: rest => [] :: splitLines rest
  | c :: rest =>
    match splitLines rest with
    | l :: ls => (c :: l) :: ls
    | [] => [[c]]

/-- Split a line at its first colon, when it has one. -/
def splitColon : List Char → Option (List Char × List Char)
  | [] => none
  | ':' :: rest => some ([], rest)
  | c :: rest =>
    match splitColon rest with
    | some (k, v) => some (c :: k, v)
    | none => none

/-- Parse one `key: value` line of the metadata body. -/
def parseKV (l : List Char) : Option (List Char × List Char) :=
  (splitColon l).map (fun kv => (kv.1, kv.2.dropWhile (fun c => c = ' ')))

/-- Model of the external YAML loader on the captured body: a plain
`key: value` per-line mapping; an absent capture gives the empty map. -/
def yamlLoad : Option (List Char) → List (List Char × List Char)
  | none => []
  | some body => (splitLines body).filterMap parseKV

/-- `extractFrontmatter` of buildPages.js: run the anchored pattern; on a
match, parse the captured body and return the text after the match
(`file.slice(match[0].length)`); otherwise the empty mapping and the whole
input. -/
def extractFrontmatter (file : List Char) :
    (List (List Char × List Char)) × List Char :=
  match fmMatch file with
  | some (m, g, _) => (yamlLoad g, file.drop m.length)
  | none => ([], file)

example :
    fmMatch (str "---\na: 1\n---\nbody") =
      some (str "---\na: 1\n---\n", some (str "a: 1"), str "body") := by decide

example :
    extractFrontmatter (str "---\na: b\n-->\nrest") =
      ([(str "a", str "b")], str "rest") := by decide

example : extractFrontmatter (str "no block") = ([], str "no block") := by decide

/-! ## Path primitives (Node's `basename`/`extname`, `String.replace`) -/

/-- JavaScript `s.replace(pat, repl)` for plain strings: replace the first
occurrence of `pat` in `s`, or return `s` unchanged when absent. -/
def replaceFirst (pat repl : List Char) : List Char → List Char
  | [] => if pat.isPrefixOf ([] : List Char) then repl else []
  | c :: cs =>
    if pat.isPrefixOf (c :: cs) then repl ++ (c :: cs).drop pat.length
    else c :: replaceFirst pat repl cs

/-- The final path component (`basename`). -/
def basenameL (s : List Char) : List Char :=
  ((s.reverse).takeWhile (fun c => c ≠ '/')).reverse

/-- The extension of a basename: from its last dot to its end, `[]` when it
has no dot. -/
def extFromBase (b : List Char) : List Char :=
  if '.' ∈ b then '.' :: ((b.reverse).takeWhile (fun c => c ≠ '.')).reverse
  else []

/-- The extension of a path (`extname`). -/
def extnameL (s : List Char) : List Char := extFromBase (basenameL s)

/-! ## Pages

The Page record of the data model (spec 3): one discovered content file.
The `buildPages.js` revisions under `src/` carry the same data through
local variables (`path`, `frontmatter`, `content` and the derived
relative output path). -/

/-- One discovered content file (spec 3: Page). -/
structure Page where
  path : List Char
  slug : List Char
  frontmatter : List (List Char × List Char)
  content : List Char
deriving DecidableEq, Repr

def keyPermalink : List Char := str "permalink"

def keyTemplate : List Char := str "template"

def keyContent : List Char := str "content"

def keyPublished : List Char := str "published_date"

def keyBuildScript : List Char := str "buildScript"

/-! ## Collections and context (spec 4.5)

Modelled from the spec: the Collection/Context Builder has no counterpart
in the `buildPages.js` revisions under `src/`; only its configuration
(`collections`, `processContext` in `src/brut/src/index.js`) and callers
(`www/brut.config.js`) appear there.  The parse of `published_date` is the
external `Date` facility, abstracted as a numeric valuation `dateVal`. -/

/-- A page carries a non-empty `published_date` frontmatter field. -/
def eligiblePage (p : Page) : Bool :=
  match objGet p.frontmatter keyPublished with
  | some v => !v.isEmpty
  | none => false

/-- Membership test of spec 3: the source path contains `<pagesDir>/<c>`
as a path segment, i.e. `<pagesDir>/<c>/` is a prefix of the path. -/
def matchesColl (pagesDir c : List Char) (p : Page) : Bool :=
  (pagesDir ++ '/' :: (c ++ ['/'])).isPrefixOf p.path

/-- The first configured collection whose segment appears in the page's
path (spec 4.5 step 3: first match wins). -/
def firstMatch (pagesDir : List Char) (colls : List (List Char)) (p : Page) :
    Option (List Char) :=
  colls.find? (fun c => matchesColl pagesDir c p)

/-- The parsed date of a page's `published_date` field under a given
valuation of the external date parser. -/
def pageDate (dateVal : List Char → Int) (p : Page) : Int :=
  dateVal ((objGet p.frontmatter keyPublished).getD [])

/-- Spec 4.5 steps 1 and 2: pages with a non-empty `published_date`,
sorted descending by parsed date value. -/
def sortedEligible (dateVal : List Char → Int) (pages : List Page) : List Page :=
  List.insertionSort (fun a b => pageDate dateVal b ≤ pageDate dateVal a)
    (pages.filter eligiblePage)

/-- Spec 4.5 step 3: the sequence of collection `c` — the eligible pages,
in descending date order, whose first matching collection is `c`. -/
def contextFor (dateVal : List Char → Int) (pagesDir : List Char)
    (colls : List (List Char)) (pages : List Page) (c : List Char) : List Page :=
  (sortedEligible dateVal pages).filter
    (fun p => decide (firstMatch pagesDir colls p = some c))

/-- Spec 4.5 step 4: the context handed to rendering is the caller-supplied
transformation applied to the assembled collection map. -/
def buildContext {κ : Type} (processContext : (List Char → List Page) → κ)
    (dateVal : List Char → Int) (pagesDir : List Char) (colls : List (List Char))
    (pages : List Page) : κ :=
  processContext (contextFor dateVal pagesDir colls pages)

/-- A concrete valuation of the external date parser: the digits of an
ISO `YYYY-MM-DD` date read as one number, which orders such dates
chronologically. -/
def parseDateL (s : List Char) : Int :=
  s.foldl (fun acc c => if c.isDigit then acc * 10 + (Int.ofNat c.toNat - 48) else acc) 0

/-! ## Rendering (`buildPage` of buildPages.js)

The external template engine is an abstract function argument; the
partial map is handed to it as a lookup function over the JavaScript
object `{ content: …, ...partials }`. -/

/-- The object literal `{ content: c, ...ps }`: a binding for `content`
followed by all registry bindings, later bindings overriding earlier. -/
def partialArg (c : List Char) (ps : List (List Char × List Char)) :
    List (List Char × List Char) :=
  (keyContent, c) :: ps

/-- `buildPage` of buildPages.js (the second revision under `src/`): inject
into the named template with the frontmatter as the view and
`{ content, ...partials }` as partials, run the optional build script, and
minify.  `templates`/`partials` are `none` when their registry was never
loaded (a `null` in the source); rendering through a `null` registry or a
missing template name throws, which the embedding reports as `.error`. -/
def buildPage
    (render : List Char → List (List Char × List Char) → (List Char → Option (List Char)) → List Char)
    (minify : List Char → List Char)
    (scripts : List Char → List Char → List (List Char × List Char) → List Char → List Char)
    (templates ps : Option (List (List Char × List Char)))
    (fm : List (List Char × List Char)) (content path : List Char) :
    Except Unit (List Char) :=
  let afterTemplate : Except Unit (List Char) :=
    match objGet fm keyTemplate with
    | some t =>
      match templates with
      | none => .error ()
      | some ts =>
        match objGet ts t with
        | none => .error ()
        | some src =>
          .ok (render src fm (objGet (partialArg content (ps.getD []))))
    | none => .ok content
  match afterTemplate with
  | .error e => .error e
  | .ok c1 =>
    match objGet fm keyBuildScript with
    | some s => .ok (minify (scripts s c1 fm path))
    | none => .ok (minify c1)

/-! ## The filesystem walk and the registries (`getFiles`, `loadTemplates`,
`loadPartials` of buildPages.js) -/

/-- A directory tree: regular files with contents, and directories. -/
inductive FSTree where
  | file (name content : List Char) : FSTree
  | dir (name : List Char) (children : List FSTree) : FSTree
deriving Repr

/-- All regular files of a tree as (path, contents) pairs, paths joined
with `/` below the given root name. -/
def walkTree (pre : List Char) : FSTree → List (List Char × List Char)
  | .file n c => [(pre ++ '/' :: n, c)]
  | .dir n cs => (cs.attach.map (fun t => walkTree (pre ++ '/' :: n) t.1)).flatten
termination_by t => sizeOf t
decreasing_by
  simp_wf
  have h := List.sizeOf_lt_of_mem t.2
  omega

/-- `getFiles` of buildPages.js: recursively list a directory, or `null`
(here `none`) when reading the directory throws because it is absent. -/
def getFiles (root : List Char) (d : Option FSTree) :
    Option (List (List Char × List Char)) :=
  match d with
  | none => none
  | some (.dir _ cs) => some ((cs.attach.map (fun t => walkTree root t.1)).flatten)
  | some t => some (walkTree root t)

/-- The registry key of a template or partial file: `basename` with the
first occurrence of its extension removed, as in
`basename(path).replace(extname(path), "")`. -/
def templateNameOf (p : List Char) : List Char :=
  replaceFirst (extnameL p) [] (basenameL p)

/-- `loadTemplates` of buildPages.js: `null` (here `none`) when the
directory walk returned `null`, otherwise the files keyed by basename
without extension. -/
def loadTemplates (root : List Char) (d : Option FSTree) :
    Option (List (List Char × List Char)) :=
  match getFiles root d with
  | none => none
  | some fs => some (fs.map (fun pc => (templateNameOf pc.1, pc.2)))

/-- `loadPartials` of buildPages.js: identical shape to `loadTemplates`. -/
def loadPartials (root : List Char) (d : Option FSTree) :
    Option (List (List Char × List Char)) :=
  loadTemplates root d

/-! ## Output destinations (`buildPages` of buildPages.js, pretty urls) -/

/-- The output directory of a page (buildPages.js step 3): append the
root-stripped path to the output root, then drop `/index.html` or
`/index.md` for index files and the extension otherwise, each by a
first-occurrence `String.replace`. -/
def outDirOf (outRoot pagesDir path : List Char) : List Char :=
  let o := outRoot ++ replaceFirst pagesDir [] path
  if (str "/index.html").isSuffixOf path || (str "index.md").isSuffixOf path then
    replaceFirst (str "/index.md") [] (replaceFirst (str "/index.html") [] o)
  else
    replaceFirst (str ".html") [] (replaceFirst (str ".md") [] o)

/-- The file a page is written to (buildPages.js step 4): `outDir.html`
when the output directory is exactly `outRoot/404`, otherwise
`outDir/index.html`. -/
def writeDest (outRoot outDir : List Char) : List Char :=
  if outDir = outRoot ++ str "/404" then outDir ++ str ".html"
  else outDir ++ str "/index.html"

/-- The eligibility test of buildPages.js (line 453): only `.md` and
`.html` paths are processed; a path with any other extension is skipped
and produces no output. -/
def eligibleExt (p : List Char) : Bool :=
  (str ".md").isSuffixOf p || (str ".html").isSuffixOf p

/-- One walked path's write destination in `buildPages` of buildPages.js
(lines 451-486): `none` for a skipped ineligible path; otherwise the
file's frontmatter is extracted but takes no part in the location, which
is the 404-aware destination of the output directory computed from the
path alone. -/
def srcPageDest (outRoot pagesDir path file : List Char) : Option (List Char) :=
  if eligibleExt path then
    let _fm := (extractFrontmatter file).1
    some (writeDest outRoot (outDirOf outRoot pagesDir path))
  else none

/-! ## Failure structure (`buildPages` of buildPages.js, lines 443-493)

One `try`/`catch` wraps the whole build.  When the pages root is absent
the scan returns `null` and `paths.map` throws; the catch logs the error
and the function returns normally with nothing written.  A failing page
rejects the `Promise.all` batch and the same catch logs that error once;
page tasks already started are not cancelled, so every page whose own
steps succeed is still written.  The embedding returns the written pages
together with the logged error, and never an uncaught one. -/

/-- `buildPages` of buildPages.js: the written (page, output) pairs and
the error the single catch logged, `.ok` in every case. -/
def srcBuildPages (scan : Option (List Page))
    (build1 : Page → Except (List Char) (List Char)) :
    Except (List Char) (List (Page × List Char) × Option (List Char)) :=
  match scan with
  | none => .ok ([], some (str "TypeError"))
  | some ps =>
    .ok (ps.filterMap (fun p => ((build1 p).toOption).map (fun o => (p, o))),
      ps.findSome? (fun p => match build1 p with | .error e => some e | .ok _ => none))

/-! ## Helper lemmas -/

theorem objGet_cons (kv : List Char × List Char) (l : List (List Char × List Char))
    (k : List Char) :
    objGet (kv :: l) k =
      match objGet l k with
      | some v => some v
      | none => if kv.1 = k then some kv.2 else none := rfl

/-- A later binding for `content` shadows the literal's own: the core of
the `{ content, ...partials }` spread semantics. -/
theorem objGet_partialArg (c s : List Char) (ps : List (List Char × List Char))
    (h : objGet ps keyContent = some s) :
    objGet (partialArg c ps) keyContent = some s := by
  rw [partialArg, objGet_cons, h]

theorem openSplit_eq {cs o r : List Char} (h : openSplit cs = some (o, r)) :
    o ++ r = cs := by
  unfold openSplit at h
  split at h
  · simp only [Option.some.injEq, Prod.mk.injEq] at h
    obtain ⟨h1, h2⟩ := h
    subst h1; subst h2; rfl
  · simp only [Option.some.injEq, Prod.mk.injEq] at h
    obtain ⟨h1, h2⟩ := h
    subst h1; subst h2; rfl
  · exact absurd h (by simp)

theorem nlSplits_eq {cs n r : List Char} (h : (n, r) ∈ nlSplits cs) :
    n ++ r = cs := by
  unfold nlSplits at h
  split at h
  · simp only [List.mem_cons, List.not_mem_nil, or_false, Prod.mk.injEq] at h
    rcases h with ⟨h1, h2⟩ | ⟨h1, h2⟩ <;> (subst h1; subst h2; rfl)
  · simp only [List.mem_cons, List.not_mem_nil, or_false, Prod.mk.injEq] at h
    obtain ⟨h1, h2⟩ := h
    subst h1; subst h2; rfl
  · simp only [List.mem_cons, List.not_mem_nil, or_false, Prod.mk.injEq] at h
    obtain ⟨h1, h2⟩ := h
    subst h1; subst h2; rfl
  · exact absurd h (by simp)

theorem closeSplit_eq {cs c r : List Char} (h : closeSplit cs = some (c, r)) :
    c ++ r = cs := by
  unfold closeSplit at h
  split at h
  · simp only [Option.some.injEq, Prod.mk.injEq] at h
    obtain ⟨h1, h2⟩ := h
    subst h1; subst h2; rfl
  · simp only [Option.some.injEq, Prod.mk.injEq] at h
    obtain ⟨h1, h2⟩ := h
    subst h1; subst h2; rfl
  · exact absurd h (by simp)

theorem trailSplit_eq {cs t r : List Char} (h : trailSplit cs = some (t, r)) :
    t ++ r = cs := by
  unfold trailSplit at h
  split at h
  case _ n r' rest heq =>
    have hmem : (n, r') ∈ nlSplits cs := by rw [heq]; exact List.mem_cons_self _ _
    have he := nlSplits_eq hmem
    simp only [Option.some.injEq, Prod.mk.injEq] at h
    obtain ⟨h1, h2⟩ := h
    subst h1; subst h2; exact he
  case _ =>
    split at h
    · simp only [Option.some.injEq, Prod.mk.injEq] at h
      obtain ⟨h1, h2⟩ := h
      subst h1; subst h2; simp_all
    · exact absurd h (by simp)

theorem closeTrail_eq {cs m r : List Char} (h : closeTrail cs = some (m, r)) :
    m ++ r = cs := by
  unfold closeTrail at h
  split at h
  case _ c r1 heq =>
    split at h
    case _ t r2 heq2 =>
      have h1 := closeSplit_eq heq
      have h2 := trailSplit_eq heq2
      simp only [Option.some.injEq, Prod.mk.injEq] at h
      obtain ⟨hm, hr⟩ := h
      subst hm; subst hr
      rw [List.append_assoc, h2, h1]
    case _ => exact absurd h (by simp)
  case _ => exact absurd h (by simp)

theorem firstCT_eq {cs m r : List Char} :
    ∀ l : List (List Char × List Char), (∀ x ∈ l, x.1 ++ x.2 = cs) →
      firstCT l = some (m, r) → m ++ r = cs := by
  intro l
  induction l with
  | nil => intro _ h; simp [firstCT] at h
  | cons x l ih =>
    intro hall h
    obtain ⟨n, rest⟩ := x
    rw [firstCT] at h
    split at h
    case _ ct r2 heq =>
      have h1 := closeTrail_eq heq
      have h2 : n ++ rest = cs := hall (n, rest) (List.mem_cons_self _ _)
      simp only [Option.some.injEq, Prod.mk.injEq] at h
      obtain ⟨hm, hr⟩ := h
      subst hm; subst hr
      rw [List.append_assoc, h1, h2]
    case _ =>
      exact ih (fun y hy => hall y (List.mem_cons_of_mem _ hy)) h

theorem bodyEndHere_eq {cs m r : List Char} (h : bodyEndHere cs = some (m, r)) :
    m ++ r = cs := by
  exact firstCT_eq (nlSplits cs) (fun x hx => by
    obtain ⟨a, b⟩ := x
    exact nlSplits_eq hx) h

theorem bodySearch_eq {cs b m r : List Char} (h : bodySearch cs = some (b, m, r)) :
    b ++ m ++ r = cs := by
  induction cs generalizing b m r with
  | nil =>
    rw [bodySearch] at h
    split at h
    case _ m' rest heq =>
      rw [show bodyEndHere [] = none from rfl] at heq
      exact absurd heq (by simp)
    case _ => exact absurd h (by simp)
  | cons c cs ih =>
    rw [bodySearch] at h
    split at h
    case _ m' rest heq =>
      have he := bodyEndHere_eq heq
      simp only [Option.some.injEq, Prod.mk.injEq] at h
      obtain ⟨h1, h2, h3⟩ := h
      subst h1; subst h2; subst h3
      simpa using he
    case _ =>
      split at h
      case _ b' m' r' heq =>
        have he := ih heq
        simp only [Option.some.injEq, Prod.mk.injEq] at h
        obtain ⟨h1, h2, h3⟩ := h
        subst h1; subst h2; subst h3
        simp only [List.cons_append, List.append_assoc] at he ⊢
        rw [he]
      case _ => exact absurd h (by simp)

theorem tryNl_eq {cs1 o m r : List Char} {g : Option (List Char)} :
    ∀ l : List (List Char × List Char), (∀ x ∈ l, x.1 ++ x.2 = cs1) →
      tryNl o l = some (m, g, r) → m ++ r = o ++ cs1 := by
  intro l
  induction l generalizing m g r with
  | nil => intro _ h; simp [tryNl] at h
  | cons x l ih =>
    intro hall h
    obtain ⟨n, cs2⟩ := x
    have hx : n ++ cs2 = cs1 := hall (n, cs2) (List.mem_cons_self _ _)
    rw [tryNl] at h
    split at h
    case _ b bm br heq =>
      have hb : b ++ bm ++ br = cs2 := bodySearch_eq heq
      simp only [Option.some.injEq, Prod.mk.injEq] at h
      obtain ⟨h1, h2, h3⟩ := h
      subst h1; subst h3
      rw [← hx, ← hb]
      simp [List.append_assoc]
    case _ =>
      split at h
      case _ ct cr heq =>
        have hc : ct ++ cr = cs2 := closeTrail_eq heq
        simp only [Option.some.injEq, Prod.mk.injEq] at h
        obtain ⟨h1, h2, h3⟩ := h
        subst h1; subst h3
        rw [← hx, ← hc]
        simp [List.append_assoc]
      case _ =>
        exact ih (fun y hy => hall y (List.mem_cons_of_mem _ hy)) h

theorem fmMatch_eq {cs m r : List Char} {g : Option (List Char)}
    (h : fmMatch cs = some (m, g, r)) : m ++ r = cs := by
  unfold fmMatch at h
  split at h
  case _ o cs1 heq =>
    have ho := openSplit_eq heq
    have ht := tryNl_eq (nlSplits cs1) (fun x hx => by
      obtain ⟨a, b⟩ := x
      exact nlSplits_eq hx) h
    rw [ht, ho]
  case _ => exact absurd h (by simp)

/-! ## The claims -/

/-- C5: for any input whose leading text matches the frontmatter pattern,
the matched prefix concatenated with the returned content is the original
text; for any input with no leading block, `extractFrontmatter` returns
the empty mapping and the whole input unchanged. -/
theorem extractFrontmatter_roundtrip (file : List Char) :
    (∀ m g rest, fmMatch file = some (m, g, rest) →
      m ++ (extractFrontmatter file).2 = file) ∧
    (fmMatch file = none → extractFrontmatter file = ([], file)) := by
  constructor
  · intro m g rest h
    have hs := fmMatch_eq h
    unfold extractFrontmatter
    rw [h]
    show m ++ file.drop m.length = file
    conv_lhs => rw [← hs]
    rw [List.drop_left]
    exact hs
  · intro h
    unfold extractFrontmatter
    rw [h]

theorem extractFrontmatter_roundtrip_witness :
    fmMatch (str "---\na: 1\n---\nbody") =
      some (str "---\na: 1\n---\n", some (str "a: 1"), str "body") ∧
    str "---\na: 1\n---\n" ++ (extractFrontmatter (str "---\na: 1\n---\nbody")).2 =
      str "---\na: 1\n---\nbody" :=
  ⟨by decide, (extractFrontmatter_roundtrip (str "---\na: 1\n---\nbody")).1
      (str "---\na: 1\n---\n") (some (str "a: 1")) (str "body") (by decide)⟩

/-- C6 counterexample: an input whose opening line is `---` and whose
closing line is `-->` nevertheless has a block extracted — the pattern
pairs the two opener and the two closer alternatives freely. -/
theorem extractFrontmatter_mixed_delimiters_counterexample :
    extractFrontmatter (str "---\na: b\n-->\nrest") =
      ([(str "a", str "b")], str "rest") ∧
    extractFrontmatter (str "---\na: b\n-->\nrest") ≠
      ([], str "---\na: b\n-->\nrest") :=
  ⟨by decide, by decide⟩

/-- C6 amended: a leading region opened by `---` or `<!--` and closed by
`---` or `-->` in any of the four combinations is extracted as a
frontmatter block. -/
theorem extractFrontmatter_delimiters_combine (o c : List Char)
    (ho : o ∈ [str "---", str "<!--"]) (hc : c ∈ [str "---", str "-->"]) :
    extractFrontmatter (o ++ '\n' :: (str "a: b" ++ '\n' :: (c ++ '\n' :: str "rest"))) =
      ([(str "a", str "b")], str "rest") := by
  simp only [List.mem_cons, List.not_mem_nil, or_false] at ho hc
  rcases ho with ho | ho <;> rcases hc with hc | hc <;> subst ho <;> subst hc <;> decide

theorem extractFrontmatter_delimiters_combine_witness :
    extractFrontmatter
        (str "<!--" ++ '\n' :: (str "a: b" ++ '\n' :: (str "---" ++ '\n' :: str "rest"))) =
      ([(str "a", str "b")], str "rest") :=
  extractFrontmatter_delimiters_combine (str "<!--") (str "---") (by decide) (by decide)

/-- C9: a page whose output directory is exactly `outRoot/404` — slug
`/404/` — is written to `outRoot/404.html`; any other page whose slug is
`rel ++ "/"` is written to `outRoot ++ slug ++ "index.html"`. -/
theorem writeDest_404_and_pretty (outRoot rel slug : List Char)
    (hslug : slug = rel ++ ['/']) :
    (rel = str "/404" →
      writeDest outRoot (outRoot ++ rel) = outRoot ++ str "/404.html") ∧
    (rel ≠ str "/404" →
      writeDest outRoot (outRoot ++ rel) = outRoot ++ slug ++ str "index.html") := by
  constructor
  · intro h
    subst h
    unfold writeDest
    rw [if_pos rfl, List.append_assoc]
    congr 1
  · intro h
    unfold writeDest
    rw [if_neg (fun he => h (List.append_cancel_left he))]
    subst hslug
    rw [List.append_assoc, List.append_assoc, List.append_assoc]
    congr 2

theorem writeDest_404_and_pretty_witness :
    writeDest (str "/dist") (str "/dist" ++ str "/404") = str "/dist" ++ str "/404.html" ∧
    writeDest (str "/dist") (str "/dist" ++ str "/posts/a") =
      str "/dist" ++ str "/posts/a/" ++ str "index.html" :=
  ⟨(writeDest_404_and_pretty (str "/dist") (str "/404") (str "/404/") (by decide)).1 rfl,
   (writeDest_404_and_pretty (str "/dist") (str "/posts/a") (str "/posts/a/") (by decide)).2
      (by decide)⟩

/-- C10: when the partial registry has a `content` entry, the partial map
`{ content, ...partials }` that `buildPage` hands the template engine binds
`content` to the registry entry — the spread follows the page-content
binding and shadows it, so the page body is uninjectable. -/
theorem buildPage_partials_shadow_content
    (render : List Char → List (List Char × List Char) → (List Char → Option (List Char)) → List Char)
    (minify : List Char → List Char)
    (scripts : List Char → List Char → List (List Char × List Char) → List Char → List Char)
    (ts ps fm : List (List Char × List Char)) (content path t src s : List Char)
    (ht : objGet fm keyTemplate = some t) (hts : objGet ts t = some src)
    (hsc : objGet fm keyBuildScript = none) (hc : objGet ps keyContent = some s) :
    buildPage render minify scripts (some ts) (some ps) fm content path =
      .ok (minify (render src fm (objGet (partialArg content ps)))) ∧
    objGet (partialArg content ps) keyContent = some s := by
  refine ⟨?_, objGet_partialArg content s ps hc⟩
  simp [buildPage, ht, hts, hsc]

theorem buildPage_partials_shadow_content_witness :
    buildPage (fun src _ _ => src) (fun h => h) (fun _ c _ _ => c)
        (some [(str "base", str "TPL")]) (some [(str "content", str "NAV")])
        [(str "template", str "base")] (str "BODY") (str "/x/") = .ok (str "TPL") ∧
    objGet (partialArg (str "BODY") [(str "content", str "NAV")]) keyContent =
      some (str "NAV") := by
  have h := buildPage_partials_shadow_content (fun src _ _ => src) (fun h => h)
    (fun _ c _ _ => c) [(str "base", str "TPL")] [(str "content", str "NAV")]
    [(str "template", str "base")] (str "BODY") (str "/x/") (str "base") (str "TPL")
    (str "NAV") (by decide) (by decide) (by decide) (by decide)
  exact ⟨h.1, h.2⟩

/-- C7 counterexample: the walk of an absent directory and the registry
loaded from it are the null marker `none`, not an empty sequence or empty
mapping. -/
theorem getFiles_absent_dir_counterexample :
    getFiles (str "/proj/templates") none = none ∧
    getFiles (str "/proj/templates") none ≠ some [] ∧
    loadTemplates (str "/proj/templates") none = none ∧
    loadTemplates (str "/proj/templates") none ≠ some [] := by
  exact ⟨rfl, by decide, rfl, by decide⟩

/-- C7 amended: an absent directory makes the tree walk and the
template/partial registries `null` (not empty collections); the build
itself continues — a page whose frontmatter names no template and no build
script still builds against the null registries. -/
theorem absent_dirs_null_registries_build_continues
    (root : List Char)
    (render : List Char → List (List Char × List Char) → (List Char → Option (List Char)) → List Char)
    (minify : List Char → List Char)
    (scripts : List Char → List Char → List (List Char × List Char) → List Char → List Char)
    (fm : List (List Char × List Char)) (content path : List Char)
    (hfm : objGet fm keyTemplate = none) (hsc : objGet fm keyBuildScript = none) :
    getFiles root none = none ∧
    loadTemplates root none = none ∧
    loadPartials root none = none ∧
    buildPage render minify scripts none none fm content path = .ok (minify content) := by
  refine ⟨rfl, rfl, rfl, ?_⟩
  simp [buildPage, hfm, hsc]

theorem absent_dirs_null_registries_build_continues_witness :
    getFiles (str "/proj/templates") none = none ∧
    loadTemplates (str "/proj/templates") none = none ∧
    loadPartials (str "/proj/partials") none = none ∧
    buildPage (fun src _ _ => src) (fun h => h) (fun _ c _ _ => c) none none []
        (str "BODY") (str "/a/") = .ok (str "BODY") := by
  have h := absent_dirs_null_registries_build_continues (str "/proj/templates")
    (fun src _ _ => src) (fun h => h) (fun _ c _ _ => c) [] (str "BODY") (str "/a/")
    (by decide) (by decide)
  exact ⟨h.1, h.2.1, h.2.1, h.2.2.2⟩

/-! ## Output path lemmas (C1, C8) -/

theorem isPrefixOf_append (root rel : List Char) :
    root.isPrefixOf (root ++ rel) = true := by
  induction root with
  | nil => simp [List.isPrefixOf]
  | cons c cs ih => simp [List.isPrefixOf, ih]

theorem isSuffixOf_append (s b : List Char) : b.isSuffixOf (s ++ b) = true := by
  simp only [List.isSuffixOf]
  rw [List.reverse_append]
  exact isPrefixOf_append b.reverse s.reverse

theorem replaceFirst_here (pat repl b : List Char) :
    replaceFirst pat repl (pat ++ b) = repl ++ b := by
  cases hs : pat ++ b with
  | nil =>
    obtain ⟨hp, hb⟩ := List.append_eq_nil.mp hs
    subst hp; subst hb
    simp [replaceFirst, List.isPrefixOf]
  | cons x xs =>
    have hpre := isPrefixOf_append pat b
    rw [hs] at hpre
    rw [replaceFirst, if_pos hpre, ← hs, List.drop_left]

theorem replaceFirst_none (c : Char) (pat' repl : List Char) :
    ∀ s : List Char, c ∉ s → replaceFirst (c :: pat') repl s = s := by
  intro s
  induction s with
  | nil =>
    intro _
    simp [replaceFirst, List.isPrefixOf]
  | cons x xs ih =>
    intro hns
    have hx : (c == x) = false := by
      simp only [beq_eq_false_iff_ne]
      intro he
      exact hns (he ▸ List.mem_cons_self x xs)
    rw [replaceFirst, if_neg (by simp [List.isPrefixOf, hx])]
    rw [ih (fun hm => hns (List.mem_cons_of_mem _ hm))]

theorem replaceFirst_disjoint (c : Char) (pat' repl a b : List Char) (hc : c ∉ a) :
    replaceFirst (c :: pat') repl (a ++ (c :: pat') ++ b) = a ++ repl ++ b := by
  induction a with
  | nil =>
    simp only [List.nil_append]
    exact replaceFirst_here (c :: pat') repl b
  | cons x a' ih =>
    have hx : (c == x) = false := by
      simp only [beq_eq_false_iff_ne]
      intro he
      exact hc (he ▸ List.mem_cons_self x a')
    have hstep : (x :: a') ++ (c :: pat') ++ b = x :: (a' ++ (c :: pat') ++ b) := by simp
    rw [hstep, replaceFirst, if_neg (by simp [List.isPrefixOf, hx])]
    rw [ih (fun hm => hc (List.mem_cons_of_mem _ hm))]
    simp

/-! ## Collection membership lemmas (C2) -/

theorem isPrefixOf_to_append {l s : List Char} (h : l.isPrefixOf s = true) :
    ∃ t, l ++ t = s := by
  induction l generalizing s with
  | nil => exact ⟨s, rfl⟩
  | cons a as ih =>
    cases s with
    | nil => simp [List.isPrefixOf] at h
    | cons b bs =>
      rw [List.isPrefixOf] at h
      simp only [Bool.and_eq_true, beq_iff_eq] at h
      obtain ⟨hab, htl⟩ := h
      subst hab
      obtain ⟨t, ht⟩ := ih htl
      exact ⟨t, by rw [List.cons_append, ht]⟩

theorem slashfree_seg_eq : ∀ {c1 c2 : List Char}, c1 ++ ['/'] <+: c2 ++ ['/'] →
    '/' ∉ c1 → '/' ∉ c2 → c1 = c2 := by
  intro c1
  induction c1 with
  | nil =>
    intro c2 h h1 h2
    cases c2 with
    | nil => rfl
    | cons b bs =>
      rw [List.nil_append, List.cons_append, List.cons_prefix_cons] at h
      obtain ⟨hb, -⟩ := h
      exact absurd (hb ▸ List.mem_cons_self b bs) h2
  | cons a as ih =>
    intro c2 h h1 h2
    cases c2 with
    | nil =>
      have := h.length_le
      simp at this
    | cons b bs =>
      rw [List.cons_append, List.cons_append, List.cons_prefix_cons] at h
      obtain ⟨hab, htl⟩ := h
      subst hab
      have heq := ih htl (fun hm => h1 (List.mem_cons_of_mem _ hm))
        (fun hm => h2 (List.mem_cons_of_mem _ hm))
      rw [heq]

theorem matchesColl_unique {pagesDir c1 c2 : List Char} {p : Page}
    (h1 : matchesColl pagesDir c1 p = true) (h2 : matchesColl pagesDir c2 p = true)
    (n1 : '/' ∉ c1) (n2 : '/' ∉ c2) : c1 = c2 := by
  unfold matchesColl at h1 h2
  obtain ⟨t1, ht1⟩ := isPrefixOf_to_append h1
  obtain ⟨t2, ht2⟩ := isPrefixOf_to_append h2
  have hh : pagesDir ++ '/' :: (c1 ++ '/' :: t1) = pagesDir ++ '/' :: (c2 ++ '/' :: t2) := by
    have e1 : pagesDir ++ '/' :: (c1 ++ '/' :: t1) =
        pagesDir ++ '/' :: (c1 ++ ['/']) ++ t1 := by simp
    have e2 : pagesDir ++ '/' :: (c2 ++ '/' :: t2) =
        pagesDir ++ '/' :: (c2 ++ ['/']) ++ t2 := by simp
    rw [e1, e2, ht1, ht2]
  have he2 : c1 ++ '/' :: t1 = c2 ++ '/' :: t2 :=
    (List.cons.inj (List.append_cancel_left hh)).2
  have pre1 : c1 ++ ['/'] <+: c2 ++ '/' :: t2 := by
    rw [← he2]
    have e3 : c1 ++ '/' :: t1 = (c1 ++ ['/']) ++ t1 := by simp
    rw [e3]
    exact List.prefix_append _ _
  have pre2 : c2 ++ ['/'] <+: c2 ++ '/' :: t2 := by
    have e4 : c2 ++ '/' :: t2 = (c2 ++ ['/']) ++ t2 := by simp
    rw [e4]
    exact List.prefix_append _ _
  rcases le_total (c1 ++ ['/']).length (c2 ++ ['/']).length with hle | hle
  · exact slashfree_seg_eq (List.prefix_of_prefix_length_le pre1 pre2 hle) n1 n2
  · exact (slashfree_seg_eq (List.prefix_of_prefix_length_le pre2 pre1 hle) n2 n1).symm

theorem firstMatch_eq_some_iff {pagesDir : List Char} {colls : List (List Char)}
    (hnf : ∀ c ∈ colls, '/' ∉ c) (p : Page) (c : List Char) (hc : c ∈ colls) :
    firstMatch pagesDir colls p = some c ↔ matchesColl pagesDir c p = true := by
  constructor
  · intro h
    unfold firstMatch at h
    exact @List.find?_some (List Char) (fun d => matchesColl pagesDir d p) c colls h
  · intro hm
    unfold firstMatch
    cases hfm : List.find? (fun d => matchesColl pagesDir d p) colls with
    | none =>
      exact absurd hm (by simpa using List.find?_eq_none.mp hfm c hc)
    | some c2 =>
      have hm2 : matchesColl pagesDir c2 p = true :=
        @List.find?_some (List Char) (fun d => matchesColl pagesDir d p) c2 colls hfm
      have hmem2 : c2 ∈ colls :=
        @List.mem_of_find?_eq_some (List Char) (fun d => matchesColl pagesDir d p) c2 colls hfm
      exact congrArg some (matchesColl_unique hm2 hm (hnf c2 hmem2) (hnf c hc))

/-- C2: for a configuration whose collection names are directory names
(no `/`), each configured collection maps to exactly the loaded pages that
carry a non-empty `published_date` and live under that collection's
directory, ordered descending by the parsed date value; and the context
handed to rendering is the caller-supplied `processContext` applied to
that collection map. -/
theorem context_collections {κ : Type}
    (processContext : (List Char → List Page) → κ)
    (dateVal : List Char → Int) (pagesDir : List Char)
    (colls : List (List Char)) (pages : List Page)
    (hnf : ∀ c ∈ colls, '/' ∉ c) (c : List Char) (hc : c ∈ colls) :
    (contextFor dateVal pagesDir colls pages c).Perm
      (pages.filter (fun p => eligiblePage p && matchesColl pagesDir c p)) ∧
    List.Sorted (fun a b => pageDate dateVal b ≤ pageDate dateVal a)
      (contextFor dateVal pagesDir colls pages c) ∧
    buildContext processContext dateVal pagesDir colls pages =
      processContext (contextFor dateVal pagesDir colls pages) := by
  have hpt : ∀ x ∈ pages,
      (decide (firstMatch pagesDir colls x = some c) && eligiblePage x) =
        (eligiblePage x && matchesColl pagesDir c x) := by
    intro x hx
    have hdm : decide (firstMatch pagesDir colls x = some c) = matchesColl pagesDir c x := by
      cases hb : matchesColl pagesDir c x
      · simp only [decide_eq_false_iff_not]
        intro hf
        have hmb := (firstMatch_eq_some_iff hnf x c hc).mp hf
        rw [hb] at hmb
        exact absurd hmb (by simp)
      · simp only [decide_eq_true_eq]
        exact (firstMatch_eq_some_iff hnf x c hc).mpr hb
    rw [hdm, Bool.and_comm]
  refine ⟨?_, ?_, rfl⟩
  · unfold contextFor sortedEligible
    have hperm := (List.perm_insertionSort
      (fun a b => pageDate dateVal b ≤ pageDate dateVal a)
      (pages.filter eligiblePage)).filter
      (fun p => decide (firstMatch pagesDir colls p = some c))
    refine hperm.trans ?_
    rw [List.filter_filter, List.filter_congr hpt]
  · unfold contextFor sortedEligible
    have hs : List.Sorted (fun a b => pageDate dateVal b ≤ pageDate dateVal a)
        (List.insertionSort (fun a b => pageDate dateVal b ≤ pageDate dateVal a)
          (pages.filter eligiblePage)) := by
      haveI : IsTotal Page (fun a b => pageDate dateVal b ≤ pageDate dateVal a) :=
        ⟨fun a b => le_total _ _⟩
      haveI : IsTrans Page (fun a b => pageDate dateVal b ≤ pageDate dateVal a) :=
        ⟨fun a b d h1 h2 => le_trans h2 h1⟩
      exact List.sorted_insertionSort _ _
    exact List.Pairwise.filter _ hs

theorem context_collections_witness :
    contextFor parseDateL (str "/s/pages") [str "posts"]
        [⟨str "/s/pages/posts/a.md", str "/posts/a/",
            [(keyPublished, str "2024-01-01")], str "A"⟩,
         ⟨str "/s/pages/posts/b.md", str "/posts/b/",
            [(keyPublished, str "2023-06-01")], str "B"⟩,
         ⟨str "/s/pages/posts/c.md", str "/posts/c/",
            [(keyPublished, str "2024-06-01")], str "C"⟩,
         ⟨str "/s/pages/about.md", str "/about/", [], str "D"⟩]
        (str "posts") =
      [⟨str "/s/pages/posts/c.md", str "/posts/c/",
          [(keyPublished, str "2024-06-01")], str "C"⟩,
       ⟨str "/s/pages/posts/a.md", str "/posts/a/",
          [(keyPublished, str "2024-01-01")], str "A"⟩,
       ⟨str "/s/pages/posts/b.md", str "/posts/b/",
          [(keyPublished, str "2023-06-01")], str "B"⟩] ∧
    (contextFor parseDateL (str "/s/pages") [str "posts"]
        [⟨str "/s/pages/posts/a.md", str "/posts/a/",
            [(keyPublished, str "2024-01-01")], str "A"⟩,
         ⟨str "/s/pages/posts/b.md", str "/posts/b/",
            [(keyPublished, str "2023-06-01")], str "B"⟩,
         ⟨str "/s/pages/posts/c.md", str "/posts/c/",
            [(keyPublished, str "2024-06-01")], str "C"⟩,
         ⟨str "/s/pages/about.md", str "/about/", [], str "D"⟩]
        (str "posts")).Perm
      ([⟨str "/s/pages/posts/a.md", str "/posts/a/",
            [(keyPublished, str "2024-01-01")], str "A"⟩,
         ⟨str "/s/pages/posts/b.md", str "/posts/b/",
            [(keyPublished, str "2023-06-01")], str "B"⟩,
         ⟨str "/s/pages/posts/c.md", str "/posts/c/",
            [(keyPublished, str "2024-06-01")], str "C"⟩,
         ⟨str "/s/pages/about.md", str "/about/", [], str "D"⟩].filter
        (fun p => eligiblePage p && matchesColl (str "/s/pages") (str "posts") p)) := by
  constructor
  · decide
  · exact (context_collections (fun ctx => ctx) parseDateL (str "/s/pages") [str "posts"]
      [⟨str "/s/pages/posts/a.md", str "/posts/a/",
          [(keyPublished, str "2024-01-01")], str "A"⟩,
       ⟨str "/s/pages/posts/b.md", str "/posts/b/",
          [(keyPublished, str "2023-06-01")], str "B"⟩,
       ⟨str "/s/pages/posts/c.md", str "/posts/c/",
          [(keyPublished, str "2024-06-01")], str "C"⟩,
       ⟨str "/s/pages/about.md", str "/about/", [], str "D"⟩]
      (by decide) (str "posts") (by decide)).1

/-- C1 counterexample: the output location ignores `frontmatter.permalink`
— a page whose frontmatter sets `permalink: /custom/` is still written to
its path-derived destination — and the `endsWith("index.md")` test fires
on `myindex.md`, whose first-occurrence replaces then find no `/index.md`
and leave the extension in the output path. -/
theorem srcPageDest_permalink_counterexample :
    objGet (extractFrontmatter (str "---\npermalink: /custom/\n---\nhi")).1 keyPermalink =
      some (str "/custom/") ∧
    srcPageDest (str "/dist") (str "pages") (str "pages/posts/hello.md")
        (str "---\npermalink: /custom/\n---\nhi") =
      some (str "/dist/posts/hello/index.html") ∧
    srcPageDest (str "/dist") (str "pages") (str "pages/posts/hello.md")
        (str "---\npermalink: /custom/\n---\nhi") ≠
      some (str "/dist/custom/index.html") ∧
    srcPageDest (str "/dist") (str "pages") (str "pages/posts/myindex.md") (str "x") =
      some (str "/dist/posts/myindex.md/index.html") :=
  ⟨by decide, by decide, by decide, by decide⟩

/-- C1 amended: the output location is a function of the source path alone
— `frontmatter.permalink` is ignored.  The output directory is the output
root plus the path with the first occurrence of the pages root removed;
for a path `<pagesDir><r>/<name>.md` whose pieces are dot-free and which
does not end in `index.md`, the extension is dropped and the page is
written to `<outRoot><r>/<name>/index.html`; `pages/index.html` and
`pages/posts/index.md` collapse to `<outRoot>/index.html` and
`<outRoot>/posts/index.html` by removing the first `/index.<ext>`
occurrence. -/
theorem srcPageDest_path_only (outRoot pagesDir r name file : List Char)
    (hdo : '.' ∉ outRoot) (hdr : '.' ∉ r) (hdn : '.' ∉ name)
    (hni : (str "index.md").isSuffixOf
      (pagesDir ++ (r ++ '/' :: (name ++ str ".md"))) = false)
    (hnx : (str "/index.html").isSuffixOf
      (pagesDir ++ (r ++ '/' :: (name ++ str ".md"))) = false)
    (h404 : r ++ '/' :: name ≠ str "/404") :
    (∀ f2, srcPageDest outRoot pagesDir (pagesDir ++ (r ++ '/' :: (name ++ str ".md"))) f2 =
      srcPageDest outRoot pagesDir (pagesDir ++ (r ++ '/' :: (name ++ str ".md"))) file) ∧
    srcPageDest outRoot pagesDir (pagesDir ++ (r ++ '/' :: (name ++ str ".md"))) file =
      some (outRoot ++ (r ++ '/' :: name) ++ str "/index.html") ∧
    srcPageDest (str "/dist") (str "pages") (str "pages/index.html") (str "x") =
      some (str "/dist/index.html") ∧
    srcPageDest (str "/dist") (str "pages") (str "pages/posts/index.md") (str "x") =
      some (str "/dist/posts/index.html") := by
  refine ⟨fun f2 => rfl, ?_, by decide, by decide⟩
  have helig : eligibleExt (pagesDir ++ (r ++ '/' :: (name ++ str ".md"))) = true := by
    unfold eligibleExt
    have h1 : pagesDir ++ (r ++ '/' :: (name ++ str ".md")) =
        (pagesDir ++ (r ++ '/' :: name)) ++ str ".md" := by simp
    rw [h1, isSuffixOf_append]
    simp
  unfold srcPageDest
  rw [helig, if_pos rfl]
  unfold outDirOf
  rw [hni, hnx]
  rw [if_neg (by simp)]
  rw [replaceFirst_here pagesDir [] (r ++ '/' :: (name ++ str ".md"))]
  simp only [List.nil_append]
  have hca : '.' ∉ outRoot ++ (r ++ '/' :: name) := by
    intro hm
    rcases List.mem_append.mp hm with hm | hm
    · exact hdo hm
    · rcases List.mem_append.mp hm with hm | hm
      · exact hdr hm
      · rcases List.mem_cons.mp hm with hm | hm
        · exact absurd hm (by decide)
        · exact hdn hm
  have hmd : str ".md" = '.' :: str "md" := by decide
  have h2 : outRoot ++ (r ++ '/' :: (name ++ '.' :: str "md")) =
      (outRoot ++ (r ++ '/' :: name)) ++ ('.' :: str "md") ++ [] := by
    simp
  rw [hmd, h2, replaceFirst_disjoint '.' (str "md") [] _ [] hca]
  simp only [List.append_nil]
  have hhtml : str ".html" = '.' :: str "html" := by decide
  rw [hhtml, replaceFirst_none '.' (str "html") [] _ hca]
  unfold writeDest
  rw [if_neg (fun he => h404 (List.append_cancel_left he))]

theorem srcPageDest_path_only_witness :
    srcPageDest (str "/dist") (str "pages")
        (str "pages" ++ (str "/posts" ++ '/' :: (str "hello" ++ str ".md")))
        (str "---\npermalink: /ignored/\n---\nhi") =
      some (str "/dist" ++ (str "/posts" ++ '/' :: str "hello") ++ str "/index.html") :=
  (srcPageDest_path_only (str "/dist") (str "pages") (str "/posts") (str "hello")
    (str "---\npermalink: /ignored/\n---\nhi") (by decide) (by decide) (by decide)
    (by decide) (by decide) (by decide)).2.1

/-- C3 counterexample: a page naming no template never passes through the
template engine — a render function that returns `ENGINE` on every input
leaves no trace in the output — and for a templated page the variable
scope handed to the engine is the frontmatter itself, whose fields (here
`author`) are directly readable, not a `{ page, context }` record. -/
theorem buildPage_untemplated_skips_engine_counterexample :
    buildPage (fun _ _ _ => str "ENGINE") (fun h => h) (fun _ c _ _ => c)
        (some [(str "base", str "TPL-")]) (some []) [] (str "BODY") (str "/x/") =
      .ok (str "BODY") ∧
    buildPage (fun _ _ _ => str "ENGINE") (fun h => h) (fun _ c _ _ => c)
        (some [(str "base", str "TPL-")]) (some []) [] (str "BODY") (str "/x/") ≠
      .ok (str "ENGINE") ∧
    buildPage (fun _ view _ => (objGet view (str "author")).getD (str "NOAUTHOR"))
        (fun h => h) (fun _ c _ _ => c) (some [(str "base", str "TPL-")]) (some [])
        [(str "template", str "base"), (str "author", str "rm")]
        (str "BODY") (str "/x/") =
      .ok (str "rm") :=
  ⟨rfl, fun h => by injection h with hv; exact absurd hv (by decide), rfl⟩

/-- C3 amended: only a page naming a template in the registry renders
through the engine, and then with the registry entry as the template
source, the page's frontmatter — not `{ page, context }` — as the
variable scope, and `{ content, ...partials }` as the named partials; a
page naming no template bypasses the engine entirely and its content goes
straight on to minification. -/
theorem buildPage_frontmatter_view_and_skip
    (render : List Char → List (List Char × List Char) → (List Char → Option (List Char)) → List Char)
    (minify : List Char → List Char)
    (scripts : List Char → List Char → List (List Char × List Char) → List Char → List Char)
    (ts ps fm : List (List Char × List Char)) (content path t src : List Char)
    (ht : objGet fm keyTemplate = some t) (hts : objGet ts t = some src)
    (hsc : objGet fm keyBuildScript = none) :
    buildPage render minify scripts (some ts) (some ps) fm content path =
      .ok (minify (render src fm (objGet (partialArg content ps)))) ∧
    (∀ fm2 render2, objGet fm2 keyTemplate = none → objGet fm2 keyBuildScript = none →
      buildPage render2 minify scripts (some ts) (some ps) fm2 content path =
        .ok (minify content)) := by
  constructor
  · simp [buildPage, ht, hts, hsc]
  · intro fm2 render2 h1 h2
    simp [buildPage, h1, h2]

theorem buildPage_frontmatter_view_and_skip_witness :
    buildPage (fun src fm _ => src ++ (objGet fm (str "author")).getD [])
        (fun h => h) (fun _ c _ _ => c) (some [(str "base", str "TPL-")]) (some [])
        [(str "template", str "base"), (str "author", str "rm")]
        (str "BODY") (str "/x/") = .ok (str "TPL-" ++ str "rm") ∧
    buildPage (fun _ _ _ => str "ENGINE") (fun h => h) (fun _ c _ _ => c)
        (some [(str "base", str "TPL-")]) (some []) [] (str "BODY") (str "/x/") =
      .ok (str "BODY") := by
  have h := buildPage_frontmatter_view_and_skip
    (fun src fm _ => src ++ (objGet fm (str "author")).getD [])
    (fun h => h) (fun _ c _ _ => c) [(str "base", str "TPL-")] []
    [(str "template", str "base"), (str "author", str "rm")] (str "BODY") (str "/x/")
    (str "base") (str "TPL-") (by decide) (by decide) (by decide)
  exact ⟨h.1, h.2 [] (fun _ _ _ => str "ENGINE") (by decide) (by decide)⟩

/-- C4 counterexample: a failure while scanning the pages root is not
fatal to the build — the scan comes back `null`, the resulting throw is
caught by the build's single catch, and the build completes normally
(`.ok`) with nothing written and the error merely logged. -/
theorem srcBuildPages_scan_not_fatal_counterexample :
    srcBuildPages none (fun p => Except.ok p.content) =
      .ok ([], some (str "TypeError")) ∧
    srcBuildPages none (fun p => Except.ok p.content) ≠
      .error (str "TypeError") :=
  ⟨rfl, fun h => by injection h⟩

/-- C4 amended: one `try`/`catch` wraps the whole build — a pages-root
scan failure is caught and logged and the build completes normally with
no page written; there is no per-page catch, yet a page whose own steps
succeed is still written whatever happens to any other page, because
sibling tasks in flight are not cancelled; the build never propagates an
uncaught error. -/
theorem srcBuildPages_swallow_and_isolation
    (build1 : Page → Except (List Char) (List Char)) :
    srcBuildPages none build1 = .ok ([], some (str "TypeError")) ∧
    (∀ ps p o, p ∈ ps → build1 p = .ok o →
      ∃ l e, srcBuildPages (some ps) build1 = .ok (l, e) ∧ (p, o) ∈ l) ∧
    (∀ scan, ∃ v, srcBuildPages scan build1 = .ok v) := by
  refine ⟨rfl, ?_, ?_⟩
  · intro ps p o hp hb
    refine ⟨_, _, rfl, ?_⟩
    exact List.mem_filterMap.mpr ⟨p, hp, by rw [hb]; rfl⟩
  · intro scan
    cases scan <;> exact ⟨_, rfl⟩

theorem srcBuildPages_swallow_and_isolation_witness :
    srcBuildPages none (fun p => Except.ok p.content) =
      .ok ([], some (str "TypeError")) ∧
    (∃ l e, srcBuildPages
        (some [⟨str "/p/bad.md", str "/bad/", [], str "B"⟩,
               ⟨str "/p/good.md", str "/good/", [], str "G"⟩])
        (fun p => if p.path = str "/p/bad.md" then .error (str "boom")
          else .ok p.content) =
        .ok (l, e) ∧
      (⟨str "/p/good.md", str "/good/", [], str "G"⟩, str "G") ∈ l) :=
  ⟨(srcBuildPages_swallow_and_isolation (fun p => Except.ok p.content)).1,
   (srcBuildPages_swallow_and_isolation
      (fun p => if p.path = str "/p/bad.md" then .error (str "boom")
        else .ok p.content)).2.1
      [⟨str "/p/bad.md", str "/bad/", [], str "B"⟩,
       ⟨str "/p/good.md", str "/good/", [], str "G"⟩]
      ⟨str "/p/good.md", str "/good/", [], str "G"⟩ (str "G") (by decide) rfl⟩

/-- C8 counterexample: a `.xml` path is skipped by the extension filter of
buildPages.js (line 453) and produces no output. -/
theorem eligibleExt_xml_skipped_counterexample :
    eligibleExt (str "pages/feed.xml") = false ∧
    srcPageDest (str "/dist") (str "pages") (str "pages/feed.xml") (str "x") = none :=
  ⟨by decide, by decide⟩

/-- C8 amended: a page is read, parsed and written for exactly those
walked paths whose extension is `.md` or `.html`; `.xml` files — like
every other extension — are skipped and produce no output. -/
theorem srcPageDest_extension_filter (outRoot pagesDir path file : List Char) :
    (eligibleExt path = false → srcPageDest outRoot pagesDir path file = none) ∧
    (eligibleExt path = true →
      srcPageDest outRoot pagesDir path file =
        some (writeDest outRoot (outDirOf outRoot pagesDir path))) ∧
    eligibleExt (str "pages/posts/hello.md") = true ∧
    eligibleExt (str "pages/index.html") = true ∧
    eligibleExt (str "pages/feed.xml") = false ∧
    eligibleExt (str "pages/notes.txt") = false := by
  refine ⟨?_, ?_, by decide, by decide, by decide, by decide⟩
  · intro h
    simp [srcPageDest, h]
  · intro h
    simp [srcPageDest, h]

theorem srcPageDest_extension_filter_witness :
    srcPageDest (str "/dist") (str "pages") (str "pages/data/feed.xml") (str "x") =
      none ∧
    srcPageDest (str "/dist") (str "pages") (str "pages/about.html") (str "x") =
      some (writeDest (str "/dist")
        (outDirOf (str "/dist") (str "pages") (str "pages/about.html"))) :=
  ⟨(srcPageDest_extension_filter (str "/dist") (str "pages") (str "pages/data/feed.xml")
      (str "x")).1 (by decide),
   (srcPageDest_extension_filter (str "/dist") (str "pages") (str "pages/about.html")
      (str "x")).2.1 (by decide)⟩
